import Mathlib

/-!
Verification development for the cuebox-onboarding pipeline
(`helpers.py`, `make_constituents.py`, `make_tags.py`).

The Python sources are shallowly embedded below.  Conventions:

* A raw spreadsheet cell is `Option String`: `none` models a missing value
  (pandas `NaN`), `some s` models the cell text.
* Results of external library parses that the repository code delegates to
  (`pd.to_datetime` on free-form date text, Python `float(...)` inside
  `parse_amount`) are carried on the rows as already-parsed fields
  (`Option DT`, `Option ℚ`): the repository's own logic — filtering,
  grouping, tie-breaking, formatting, rendering of missing values — is
  embedded faithfully from the source.
* Python `dict` is embedded as an insertion-ordered association list with
  overwrite-in-place insertion (`dictInsert`), matching CPython semantics.
* File and network effects of `fetch_tag_mapping` are passed as explicit
  inputs (cache contents, network outcome).
-/

namespace Cuebox

/-- Python default whitespace recognized by `str.strip()` (ASCII subset). -/
def isSpaceChar (c : Char) : Bool :=
  c == ' ' || c == '\t' || c == '\n' || c == '\r' || c == '\x0b' || c == '\x0c'

/-- Strip leading and trailing whitespace, as Python `str.strip()`. -/
def trimList (cs : List Char) : List Char :=
  ((cs.dropWhile isSpaceChar).reverse.dropWhile isSpaceChar).reverse

/-- String form of `trimList`. -/
def strTrim (s : String) : String := String.mk (trimList s.data)

/-- ASCII lower-casing of one character, as Python `str.lower()` on ASCII text. -/
def lowerChar (c : Char) : Char :=
  if 'A' ≤ c && c ≤ 'Z' then Char.ofNat (c.toNat + 32) else c

/-- ASCII lower-casing of a string. -/
def strToLower (s : String) : String := String.mk (s.data.map lowerChar)

/-- Python `str.split(sep)` for a one-character separator:
`""` splits to `[""]`, and empty pieces are kept. -/
def splitOnChar (sep : Char) : List Char → List (List Char)
  | [] => [[]]
  | c :: rest =>
    let r := splitOnChar sep rest
    if c == sep then [] :: r
    else
      match r with
      | [] => [[c]]
      | h :: t => (c :: h) :: t

/-- Python `str.replace(ch, "")` for a one-character pattern. -/
def removeChar (ch : Char) (s : String) : String :=
  String.mk (s.data.filter (fun c => c != ch))

/-- helpers.clean_str: missing value renders as the empty string, else strip. -/
def cleanStr : Option String → String
  | none => ""
  | some s => strTrim s

/-- Character class of the local part of EMAIL_RE. -/
def isLocalChar (c : Char) : Bool :=
  c.isAlpha || c.isDigit || c == '.' || c == '_' || c == '%' || c == '+' || c == '-'

/-- Character class of the domain part of EMAIL_RE. -/
def isDomainChar (c : Char) : Bool :=
  c.isAlpha || c.isDigit || c == '.' || c == '-'

/-- Join chunks with a dot, inverse of a dot split. -/
def joinWithDot : List (List Char) → List Char
  | [] => []
  | [x] => x
  | x :: xs => x ++ '.' :: joinWithDot xs

/-- Whether the text after the at-sign matches the domain half of EMAIL_RE,
namely one or more domain characters, a dot, then a TLD of at least two
letters.  Since the TLD class has no dot, the separating dot of any
successful decomposition is necessarily the last dot of the text, so the
match is decided at the last dot. -/
def domainOk (d : List Char) : Bool :=
  let parts := splitOnChar '.' d
  let tld := parts.getLastD []
  let front := joinWithDot parts.dropLast
  decide (parts.length ≥ 2) && !front.isEmpty && front.all isDomainChar &&
    decide (tld.length ≥ 2) && tld.all Char.isAlpha

/-- Full-string match of EMAIL_RE
(pattern `local+@domain+.tld`, anchored both ends): the at-sign belongs to
neither character class, so a match has exactly one at-sign. -/
def emailOk (cs : List Char) : Bool :=
  match splitOnChar '@' cs with
  | [l, d] => !l.isEmpty && l.all isLocalChar && domainOk d
  | _ => false

/-- helpers.normalize_email: strip, lower-case, keep only a full EMAIL_RE match. -/
def normalizeEmail (x : Option String) : String :=
  let s := strToLower (cleanStr x)
  if s = "" then "" else if emailOk s.data then s else ""

/-- helpers.normalize_salutation_to_cb_title: strip, drop periods, lower-case,
then look up in the literal salutation table with default empty. -/
def normalizeSalutation (x : Option String) : String :=
  let s := strToLower (removeChar '.' (cleanStr x))
  if s = "mr" then "Mr."
  else if s = "mrs" then "Mrs."
  else if s = "ms" then "Ms."
  else if s = "dr" then "Dr."
  else ""

/-- helpers.ALLOWED_TITLES. -/
def ALLOWED_TITLES : List String := ["Mr.", "Mrs.", "Ms.", "Dr.", ""]

/-- helpers.split_tags: strip the cell, split on commas, strip each piece,
drop empty pieces. -/
def splitTags (x : Option String) : List String :=
  let s := cleanStr x
  if s = "" then []
  else ((splitOnChar ',' s.data).map (fun cs => strTrim (String.mk cs))).filter
    (fun t => t != "")

/-- Accumulator loop of helpers.dedupe_preserve_order (the `seen` set is
modelled extensionally as the list of elements already emitted). -/
def dedupeGo [DecidableEq α] (seen : List α) : List α → List α
  | [] => []
  | i :: rest => if i ∈ seen then dedupeGo seen rest else i :: dedupeGo (i :: seen) rest

/-- helpers.dedupe_preserve_order; also the semantics of
pandas drop_duplicates with keep=first used in make_tags. -/
def dedupePreserveOrder [DecidableEq α] (items : List α) : List α :=
  dedupeGo [] items

/-- helpers.infer_constituent_type. -/
def inferConstituentType (firstName lastName company : String) : String :=
  if company ≠ "" ∧ firstName = "" ∧ lastName = "" then "Company" else "Person"

/-- A parsed pandas Timestamp (result of a successful pd.to_datetime). -/
structure DT where
  year : Nat
  month : Nat
  day : Nat
  hour : Nat
  minute : Nat
  second : Nat
deriving DecidableEq, Repr

/-- Chronological order key of a timestamp (lexicographic on the fields,
faithful to Timestamp comparison for in-range field values). -/
def dtKey (d : DT) : Nat :=
  ((((d.year * 400 + d.month) * 400 + d.day) * 400 + d.hour) * 400 + d.minute) * 400
    + d.second

/-- Timestamp.normalize: truncate to midnight. -/
def normalizeDT (d : DT) : DT :=
  { d with hour := 0, minute := 0, second := 0 }

/-- Decimal digit character. -/
def digitChar (n : Nat) : Char := Char.ofNat (48 + n)

/-- Fuelled decimal rendering of a natural number (most significant first). -/
def natToStrAux : Nat → Nat → List Char
  | 0, _ => []
  | fuel + 1, n => if n < 10 then [digitChar n] else natToStrAux fuel (n / 10) ++ [digitChar (n % 10)]

/-- Decimal rendering of a natural number. -/
def natToStr (n : Nat) : String := String.mk (natToStrAux (n + 1) n)

/-- Zero-pad to width two, as strftime field specifiers do. -/
def pad2 (n : Nat) : String := if n < 10 then "0" ++ natToStr n else natToStr n

/-- Zero-pad to width four, as strftime `%Y` does. -/
def pad4 (n : Nat) : String :=
  if n < 10 then "000" ++ natToStr n
  else if n < 100 then "00" ++ natToStr n
  else if n < 1000 then "0" ++ natToStr n
  else natToStr n

/-- strftime with format `%Y-%m-%d %H:%M:%S`. -/
def fmtTs (d : DT) : String :=
  pad4 d.year ++ "-" ++ pad2 d.month ++ "-" ++ pad2 d.day ++ " " ++
    pad2 d.hour ++ ":" ++ pad2 d.minute ++ ":" ++ pad2 d.second

/-- helpers.parse_created_at: empty or unparsable input (the `none` case of
the carried pd.to_datetime result) renders empty; a parsed timestamp is
truncated to midnight and formatted. -/
def parseCreatedAt : Option DT → String
  | none => ""
  | some dt => fmtTs (normalizeDT dt)

/-- Comma-group an integer's digit string in threes from the right,
as the format specifier thousands separator does. -/
def groupAux : List Char → Nat → List Char
  | [], _ => []
  | c :: cs, i =>
    if i ≠ 0 ∧ i % 3 = 0 then ',' :: c :: groupAux cs (i + 1) else c :: groupAux cs (i + 1)

/-- Insert thousands separators into a digit string. -/
def groupDigits (s : String) : String :=
  String.mk (groupAux s.data.reverse 0).reverse

/-- helpers.fmt_currency on a present amount: Python format spec `$ x ,.2f`
(thousands separators, two decimals; a negative amount renders as dollar sign
then minus).  The binary-float half-even rounding of the format machinery is
modelled as rational rounding of the cent count. -/
def fmtCurrency (q : ℚ) : String :=
  let cents := (round (|q| * 100) : ℤ).toNat
  "$" ++ (if q < 0 then "-" else "") ++ groupDigits (natToStr (cents / 100)) ++ "." ++
    pad2 (cents % 100)

/-- Insertion into a Python dict rendered as an ordered association list:
an existing key keeps its position and gets the new value, a fresh key is
appended. -/
def dictInsert (m : List (String × String)) (k v : String) : List (String × String) :=
  if m.any (fun p => p.1 == k) then m.map (fun p => if p.1 == k then (k, v) else p)
  else m ++ [(k, v)]

/-- Body of the success path of helpers.fetch_tag_mapping: keep exactly the
items whose cleaned name and cleaned mapped name are both non-empty. -/
def buildMapping (items : List (Option String × Option String)) : List (String × String) :=
  items.foldl
    (fun m it =>
      let name := cleanStr it.1
      let mapped := cleanStr it.2
      if name ≠ "" ∧ mapped ≠ "" then dictInsert m name mapped else m)
    []

/-- helpers.fetch_tag_mapping with its effects passed explicitly:
`cache` is `none` when the cache file does not exist, `some none` when it
exists but fails to parse as JSON, `some (some m)` when it parses to `m`;
`net` is the outcome of the HTTP GET plus body parse, where any exception
(connection error, non-success status via raise_for_status, JSON parse
error) is `Except.error ()`.  The write-back of a fresh mapping to the cache
is an effect outside the returned value. -/
def fetchTagMapping (cache : Option (Option (List (String × String))))
    (net : Except Unit (List (Option String × Option String))) : List (String × String) :=
  match cache with
  | some (some m) => m
  | some none =>
    match net with
    | Except.error _ => []
    | Except.ok items => buildMapping items
  | none =>
    match net with
    | Except.error _ => []
    | Except.ok items => buildMapping items

/-- Tag resolution `tag_map.get(t, t)` used by both scripts. -/
def resolveTag (m : List (String × String)) (t : String) : String :=
  match m.find? (fun p => p.1 == t) with
  | some p => p.2
  | none => t

/-- Loop of helpers.pick_email1_email2 that scans the candidate list for the
first entry different from email1 (empty when none exists). -/
def pickEmail2 (email1 : String) : List String → String
  | [] => ""
  | e :: rest => if e ≠ email1 then e else pickEmail2 email1 rest

/-- helpers.pick_email1_email2.  The email index (a dict of identifier to
candidate list, looked up with default `[]`) is modelled as a function. -/
def pickEmail1Email2 (patronId : String) (primaryEmail : Option String)
    (emailsLookup : String → List String) : String × String :=
  let primary := normalizeEmail primaryEmail
  let candidates := emailsLookup patronId
  let email1 :=
    if primary ≠ "" then primary
    else match candidates with
      | [] => ""
      | c :: _ => c
  if email1 = "" then ("", "")
  else (email1, pickEmail2 email1 candidates)

/-- One row of the donation table.  `amountNum` carries the result of
helpers.parse_amount on the raw amount cell (clean, strip dollar signs and
commas, Python float parse — the numeric parse is external), `dateDt` the
result of pd.to_datetime with errors=coerce on the raw date cell
(`none` = NaT), `status` the raw Status cell when that column exists
(`none` = NaN). -/
structure DonRow where
  patronId : String
  status : Option String
  amountNum : Option ℚ
  dateDt : Option DT
deriving DecidableEq, Repr

/-- The donation table: its rows plus whether a Status column is present in
the source schema. -/
structure DonTable where
  hasStatus : Bool
  rows : List DonRow
deriving DecidableEq, Repr

/-- Identifier-stripping pass of build_donation_aggregates
(`astype(str).str.strip()` on the Patron ID column). -/
def donPrep (t : DonTable) : List DonRow :=
  t.rows.map (fun r => { r with patronId := strTrim r.patronId })

/-- Rendering of a Status cell by `astype(str)`: a missing value (NaN)
renders as the string "nan". -/
def statusAstype : Option String → String
  | none => "nan"
  | some s => s

/-- Status predicate of build_donation_aggregates:
`astype(str).str.strip().str.lower() == "paid"`. -/
def statusKeep (r : DonRow) : Bool :=
  strToLower (strTrim (statusAstype r.status)) == "paid"

/-- Rows of the donation table that survive the status filter: when a Status
column is present, only rows passing `statusKeep`; otherwise all rows. -/
def retainedRows (t : DonTable) : List DonRow :=
  if t.hasStatus then (donPrep t).filter statusKeep else donPrep t

/-- Chronological key of a row's parsed date (rows compared this way always
carry a parsed date). -/
def rowKey (r : DonRow) : Nat :=
  match r.dateDt with
  | none => 0
  | some d => dtKey d

/-- Row of the first occurrence of the maximum parsed date, the semantics of
the pandas Series idxmax used per group by build_donation_aggregates
(on ties the first row label is returned). -/
def idxmaxDate : List DonRow → Option DonRow
  | [] => none
  | r :: rest =>
    match idxmaxDate rest with
    | none => some r
    | some b => if rowKey r < rowKey b then some b else some r

/-- helpers.build_donation_aggregates: after the status filter, the lifetime
dict maps each identifier with at least one parsable amount to the sum of its
parsable amounts (groupby sum after dropna on Amount_num, as a dict lookup),
and the most-recent dict maps each identifier with at least one parsable date
to the first row attaining its maximum date (groupby idxmax after dropna on
Date_dt, with the early return of an empty dict when no row has a parsable
date). -/
def buildDonationAggregates (t : DonTable) :
    (String → Option ℚ) × (String → Option DonRow) :=
  let df := retainedRows t
  let lifetime : String → Option ℚ := fun pid =>
    let g := (df.filter (fun r => r.amountNum.isSome)).filter (fun r => r.patronId == pid)
    if g.isEmpty then none else some ((g.filterMap (fun r => r.amountNum)).sum)
  let dfRecent := df.filter (fun r => r.dateDt.isSome)
  if dfRecent.isEmpty then (lifetime, fun _ => none)
  else (lifetime, fun pid => idxmaxDate (dfRecent.filter (fun r => r.patronId == pid)))

/-- Join a list of strings with a comma and a space. -/
def joinCommaSpace : List String → String
  | [] => ""
  | [x] => x
  | x :: xs => x ++ ", " ++ joinCommaSpace xs

/-- One row of the source constituent table.  `dateEntered` carries the
pd.to_datetime parse result of the raw Date Entered cell (`none` covers a
missing, empty or unparsable cell, all of which parse_created_at renders
empty). -/
structure CRow where
  patronId : Option String
  firstName : Option String
  lastName : Option String
  company : Option String
  dateEntered : Option DT
  salutation : Option String
  primaryEmail : Option String
  jobTitle : Option String
  tags : Option String
deriving DecidableEq, Repr

/-- One output row of make_constituents (the dict literal of its row loop). -/
structure OutRow where
  cbId : String
  cbType : String
  cbFirstName : String
  cbLastName : String
  cbCompanyName : String
  cbCreatedAt : String
  cbEmail1 : String
  cbEmail2 : String
  cbTitle : String
  cbTags : String
  cbBackground : String
  cbLifetime : String
  cbMostRecentDate : String
  cbMostRecentAmount : String
deriving DecidableEq, Repr

/-- Row loop body of make_constituents.main (lines 85-136): builds one
canonical constituent row from one source row and the prepared lookups
(tag mapping, email index, lifetime dict, most-recent dict). -/
def buildRow (tagMap : List (String × String)) (emailsLookup : String → List String)
    (lifetimeLookup : String → Option ℚ) (recentLookup : String → Option DonRow)
    (r : CRow) : OutRow :=
  let pid := cleanStr r.patronId
  let fn := cleanStr r.firstName
  let ln := cleanStr r.lastName
  let company := cleanStr r.company
  let ctype := inferConstituentType fn ln company
  let createdAt := parseCreatedAt r.dateEntered
  let cbTitle := normalizeSalutation r.salutation
  let pair := pickEmail1Email2 pid r.primaryEmail emailsLookup
  let mappedTags :=
    dedupePreserveOrder (((splitTags r.tags).map (resolveTag tagMap)).filter (fun t => t != ""))
  let cbTags := joinCommaSpace mappedTags
  let jobTitle := cleanStr r.jobTitle
  let background := if jobTitle ≠ "" then "Job Title: " ++ jobTitle else ""
  let lifetimeStr :=
    match lifetimeLookup pid with
    | none => ""
    | some q => fmtCurrency q
  let mrDateStr :=
    match recentLookup pid with
    | none => ""
    | some mr =>
      match mr.dateDt with
      | none => ""
      | some dt => fmtTs dt
  let mrAmtStr :=
    match recentLookup pid with
    | none => ""
    | some mr =>
      match mr.amountNum with
      | none => ""
      | some q => fmtCurrency q
  { cbId := pid
    cbType := ctype
    cbFirstName := if ctype = "Person" then fn else ""
    cbLastName := if ctype = "Person" then ln else ""
    cbCompanyName := if ctype = "Company" then company else ""
    cbCreatedAt := createdAt
    cbEmail1 := pair.1
    cbEmail2 := pair.2
    cbTitle := cbTitle
    cbTags := cbTags
    cbBackground := background
    cbLifetime := lifetimeStr
    cbMostRecentDate := mrDateStr
    cbMostRecentAmount := mrAmtStr }

/-- BAD_TITLE scan of make_constituents.validate_constituents (lines 34-36):
one issue tuple per output row whose title is outside ALLOWED_TITLES. -/
def badTitleIssues (out : List OutRow) : List (String × String × String) :=
  (out.filter (fun r => !(decide (r.cbTitle ∈ ALLOWED_TITLES)))).map
    (fun r => (r.cbId, "BAD_TITLE", "Invalid CB Title: " ++ r.cbTitle))

/-- Per-row tag pipeline of make_tags.main (lines 31-34): split, map through
the tag mapping, keep entries that are non-empty and non-blank taking their
stripped form, dedupe preserving order. -/
def processTags (tagMap : List (String × String)) (x : Option String) : List String :=
  dedupePreserveOrder
    ((((splitTags x).map (resolveTag tagMap)).filter
        (fun t => t != "" && strTrim t != "")).map strTrim)

/-- Pair-building loop of make_tags.main (lines 28-37): one
(cleaned identifier, canonical tag) pair per processed tag of each row. -/
def buildPairs (tagMap : List (String × String)) (rows : List CRow) :
    List (String × String) :=
  rows.flatMap (fun r => (processTags tagMap r.tags).map (fun t => (cleanStr r.patronId, t)))

/-- Reported count of one canonical tag in make_tags.main (lines 45-56):
drop duplicate (identifier, tag) pairs keeping the first, then count the
distinct identifiers carrying the tag (groupby nunique). -/
def tagReportCount (tagMap : List (String × String)) (rows : List CRow) (t : String) : Nat :=
  let pairs := dedupePreserveOrder (buildPairs tagMap rows)
  (((pairs.filter (fun p => p.2 == t)).map Prod.fst).toFinset).card

/-! Helper lemmas. -/

theorem mem_dedupeGo [DecidableEq α] (a : α) :
    ∀ (l seen : List α), a ∈ dedupeGo seen l ↔ (a ∈ l ∧ a ∉ seen) := by
  intro l
  induction l with
  | nil => intro seen; simp [dedupeGo]
  | cons i rest ih =>
    intro seen
    by_cases h : i ∈ seen
    · simp only [dedupeGo, if_pos h]
      by_cases hai : a = i
      · subst hai; simp [h, ih seen]
      · simp [hai, ih seen]
    · simp only [dedupeGo, if_neg h]
      by_cases hai : a = i
      · subst hai; simp [h]
      · simp [hai, ih (i :: seen)]

theorem nodup_dedupeGo [DecidableEq α] : ∀ (l seen : List α), (dedupeGo seen l).Nodup := by
  intro l
  induction l with
  | nil => intro seen; simp [dedupeGo]
  | cons i rest ih =>
    intro seen
    by_cases h : i ∈ seen
    · simp only [dedupeGo, if_pos h]; exact ih seen
    · simp only [dedupeGo, if_neg h]
      refine List.nodup_cons.2 ⟨?_, ih (i :: seen)⟩
      intro hmem
      exact ((mem_dedupeGo i rest (i :: seen)).1 hmem).2 (List.mem_cons_self i seen)

theorem dedupeGo_idem [DecidableEq α] : ∀ (l seen : List α),
    dedupeGo seen (dedupeGo seen l) = dedupeGo seen l := by
  intro l
  induction l with
  | nil => intro seen; rfl
  | cons i rest ih =>
    intro seen
    by_cases h : i ∈ seen
    · simp only [dedupeGo, if_pos h]; exact ih seen
    · simp only [dedupeGo, if_neg h]
      rw [ih (i :: seen)]

theorem pickEmail2_ne (email1 : String) :
    ∀ cs : List String, pickEmail2 email1 cs ≠ "" → pickEmail2 email1 cs ≠ email1 := by
  intro cs
  induction cs with
  | nil => intro h; exact absurd rfl h
  | cons e rest ih =>
    by_cases he : e ≠ email1
    · simp only [pickEmail2, if_pos he]
      exact fun _ => he
    · simp only [pickEmail2, if_neg he]
      exact ih

theorem normalizeSalutation_mem (x : Option String) :
    normalizeSalutation x ∈ ALLOWED_TITLES := by
  unfold normalizeSalutation
  dsimp only
  split_ifs <;> simp [ALLOWED_TITLES]

theorem pair_shape (e1 : String) (cs : List String) :
    (if e1 = "" then (("" : String), ("" : String)) else (e1, pickEmail2 e1 cs)) = ("", "") ∨
    ∃ e, e ≠ "" ∧
      (if e1 = "" then (("" : String), ("" : String)) else (e1, pickEmail2 e1 cs))
        = (e, pickEmail2 e cs) := by
  by_cases h : e1 = ""
  · rw [if_pos h]; exact Or.inl rfl
  · rw [if_neg h]; exact Or.inr ⟨e1, h, rfl⟩

theorem pick_pair_cases (pid : String) (primary : Option String)
    (lookup : String → List String) :
    pickEmail1Email2 pid primary lookup = ("", "") ∨
    ∃ e1, e1 ≠ "" ∧ pickEmail1Email2 pid primary lookup = (e1, pickEmail2 e1 (lookup pid)) := by
  unfold pickEmail1Email2
  dsimp only
  exact pair_shape _ _

theorem normalizeDT_of_midnight (dt : DT) (h1 : dt.hour = 0) (h2 : dt.minute = 0)
    (h3 : dt.second = 0) : normalizeDT dt = dt := by
  cases dt
  simp_all [normalizeDT]

theorem idxmax_eq_none (g : List DonRow) : idxmaxDate g = none ↔ g = [] := by
  cases g with
  | nil => simp [idxmaxDate]
  | cons r rest =>
    simp only [idxmaxDate]
    cases hidx : idxmaxDate rest with
    | none => simp
    | some b =>
      by_cases hlt : rowKey r < rowKey b
      · simp [if_pos hlt]
      · simp [if_neg hlt]

theorem idxmax_le : ∀ (g : List DonRow) (b : DonRow), idxmaxDate g = some b →
    ∀ x ∈ g, rowKey x ≤ rowKey b := by
  intro g
  induction g with
  | nil => intro b h; simp [idxmaxDate] at h
  | cons r rest ih =>
    intro b h x hx
    simp only [idxmaxDate] at h
    cases hidx : idxmaxDate rest with
    | none =>
      rw [hidx] at h
      dsimp only at h
      have hrest : rest = [] := (idxmax_eq_none rest).1 hidx
      subst hrest
      cases List.mem_singleton.1 hx
      have hrb : r = b := by injection h
      subst hrb
      exact Nat.le_refl _
    | some c =>
      rw [hidx] at h
      dsimp only at h
      by_cases hlt : rowKey r < rowKey c
      · rw [if_pos hlt] at h
        have hcb : c = b := by injection h
        subst hcb
        rcases List.mem_cons.1 hx with rfl | hx'
        · exact Nat.le_of_lt hlt
        · exact ih c hidx x hx'
      · rw [if_neg hlt] at h
        have hrb : r = b := by injection h
        subst hrb
        rcases List.mem_cons.1 hx with rfl | hx'
        · exact Nat.le_refl _
        · exact Nat.le_trans (ih c hidx x hx') (Nat.le_of_not_lt hlt)

theorem find?_mono {α : Type _} {p q : α → Bool} : ∀ (l : List α) (b : α),
    l.find? p = some b → q b = true → (∀ x, q x = true → p x = true) →
    l.find? q = some b := by
  intro l
  induction l with
  | nil => intro b h; simp at h
  | cons a l ih =>
    intro b h hqb himp
    by_cases hpa : p a = true
    · rw [List.find?_cons_of_pos _ hpa] at h
      cases h
      by_cases hqa : q a = true
      · rw [List.find?_cons_of_pos _ hqa]
      · exact absurd hqb hqa
    · rw [List.find?_cons_of_neg _ hpa] at h
      have hqa : ¬ q a = true := fun hq => hpa (himp a hq)
      rw [List.find?_cons_of_neg _ hqa]
      exact ih b h hqb himp

theorem idxmax_eq_find : ∀ g : List DonRow,
    idxmaxDate g = g.find? (fun r => g.all (fun x => decide (rowKey x ≤ rowKey r))) := by
  intro g
  induction g with
  | nil => rfl
  | cons r rest ih =>
    cases hidx : idxmaxDate rest with
    | none =>
      have hrest : rest = [] := (idxmax_eq_none rest).1 hidx
      subst hrest
      simp [idxmaxDate, List.find?]
    | some b =>
      have hfind : rest.find?
          (fun r => rest.all (fun x => decide (rowKey x ≤ rowKey r))) = some b := by
        rw [← ih]; exact hidx
      have hb_mem : b ∈ rest := List.mem_of_find?_eq_some hfind
      have hpb := List.find?_some hfind
      have hall : ∀ x ∈ rest, rowKey x ≤ rowKey b := idxmax_le rest b hidx
      simp only [idxmaxDate, hidx]
      by_cases hlt : rowKey r < rowKey b
      · rw [if_pos hlt]
        have hnr : ((r :: rest).all
            (fun x => decide (rowKey x ≤ rowKey r))) = false := by
          rw [Bool.eq_false_iff]
          intro hcontra
          rw [List.all_eq_true] at hcontra
          have hbr := hcontra b (List.mem_cons_of_mem r hb_mem)
          rw [decide_eq_true_eq] at hbr
          exact absurd hbr (Nat.not_le_of_lt hlt)
        rw [List.find?_cons]
        simp only [hnr]
        symm
        apply find?_mono rest b hfind
        · rw [List.all_eq_true]
          intro x hx
          rw [decide_eq_true_eq]
          rcases List.mem_cons.1 hx with rfl | hx'
          · exact Nat.le_of_lt hlt
          · exact hall x hx'
        · intro x hx
          rw [List.all_eq_true] at hx ⊢
          intro y hy
          exact hx y (List.mem_cons_of_mem r hy)
      · rw [if_neg hlt]
        have hle : rowKey b ≤ rowKey r := Nat.le_of_not_lt hlt
        have hpr : ((r :: rest).all
            (fun x => decide (rowKey x ≤ rowKey r))) = true := by
          rw [List.all_eq_true]
          intro x hx
          rw [decide_eq_true_eq]
          rcases List.mem_cons.1 hx with rfl | hx'
          · exact Nat.le_refl _
          · exact Nat.le_trans (hall x hx') hle
        rw [List.find?_cons]
        simp only [hpr]

theorem filterMap_amount_comm (rows : List DonRow) (p : DonRow → Bool) :
    (rows.filter (fun a => p a && a.amountNum.isSome)).filterMap
        (fun r => r.amountNum)
      = (rows.filter p).filterMap (fun r => r.amountNum) := by
  induction rows with
  | nil => rfl
  | cons r rest ih =>
    cases ha : r.amountNum with
    | none =>
      by_cases hp : p r = true <;>
        simp [List.filter_cons, List.filterMap_cons, ha, hp, ih]
    | some q =>
      by_cases hp : p r = true <;>
        simp [List.filter_cons, List.filterMap_cons, ha, hp, ih]

theorem isEmpty_filter_isSome (rows : List DonRow) (p : DonRow → Bool) :
    ((rows.filter (fun a => p a && a.amountNum.isSome)).isEmpty)
      = (((rows.filter p).filterMap (fun r => r.amountNum)).isEmpty) := by
  induction rows with
  | nil => rfl
  | cons r rest ih =>
    cases ha : r.amountNum with
    | none =>
      by_cases hp : p r = true <;>
        simp [List.filter_cons, List.filterMap_cons, ha, hp, ih]
    | some q =>
      by_cases hp : p r = true <;>
        simp [List.filter_cons, List.filterMap_cons, ha, hp, ih]

/-! Claim theorems. -/

/-- C1: for every identifier, raw primary email cell and email index, the
pair returned by pick_email1_email2 never has email2 populated while email1
is empty, and when both components are non-empty they differ. -/
theorem pick_pair_invariant (pid : String) (primary : Option String)
    (lookup : String → List String) :
    ((pickEmail1Email2 pid primary lookup).1 = "" →
      (pickEmail1Email2 pid primary lookup).2 = "") ∧
    ((pickEmail1Email2 pid primary lookup).1 ≠ "" →
      (pickEmail1Email2 pid primary lookup).2 ≠ "" →
      (pickEmail1Email2 pid primary lookup).1 ≠ (pickEmail1Email2 pid primary lookup).2) := by
  rcases pick_pair_cases pid primary lookup with h | ⟨e1, he1, h⟩
  · rw [h]
    exact ⟨fun _ => rfl, fun hc => absurd rfl hc⟩
  · rw [h]
    refine ⟨fun hc => absurd hc he1, fun _ h2 heq => ?_⟩
    exact (pickEmail2_ne e1 (lookup pid) h2) heq.symm

/-- C1 witness: a concrete run where both emails are non-empty and distinct. -/
theorem pick_pair_invariant_witness :
    (pickEmail1Email2 "P1" (some "A@b.co")
        (fun p => if p = "P1" then ["a@b.co", "b@b.co"] else [])).1 ≠
      (pickEmail1Email2 "P1" (some "A@b.co")
        (fun p => if p = "P1" then ["a@b.co", "b@b.co"] else [])).2 :=
  (pick_pair_invariant "P1" (some "A@b.co")
      (fun p => if p = "P1" then ["a@b.co", "b@b.co"] else [])).2
    (by decide) (by decide)

/-- A donation row whose Status cell is missing but whose amount parses. -/
def statusNoneRow : DonRow :=
  { patronId := "P1", status := none, amountNum := some 10, dateDt := none }

/-- C2 counterexample: in a table with a Status column, a record whose status
value is absent is rendered "nan" by the string cast and filtered out, so it
does not participate in aggregation — its parsable amount notwithstanding. -/
theorem status_absent_excluded :
    statusNoneRow.status = none ∧
    statusNoneRow.amountNum.isSome = true ∧
    retainedRows { hasStatus := true, rows := [statusNoneRow] } = [] ∧
    (buildDonationAggregates { hasStatus := true, rows := [statusNoneRow] }).1 "P1" = none :=
  ⟨rfl, rfl, rfl, rfl⟩

/-- C2 amended: with a Status column present, exactly the records whose
status value is present and normalizes (case/whitespace-insensitively) to
"paid" are retained — an absent status value is rendered "nan" and excluded;
without a Status column no filtering is applied. -/
theorem status_filter_amended (t : DonTable) :
    retainedRows t =
      if t.hasStatus then
        (donPrep t).filter (fun r =>
          match r.status with
          | some s => strToLower (strTrim s) == "paid"
          | none => false)
      else donPrep t := by
  have hp : statusKeep = (fun r : DonRow =>
      match r.status with
      | some s => strToLower (strTrim s) == "paid"
      | none => false) := by
    funext r
    cases hr : r.status
    · simp only [statusKeep, statusAstype, hr]
      decide
    · simp only [statusKeep, statusAstype, hr]
  simp only [retainedRows, hp]

/-- C6: with no cache present and a failing external source (any network,
parse or status failure is the error outcome), the loaded mapping is empty
and resolution maps every tag — in particular "VIP" — to itself. -/
theorem tag_mapping_fallback :
    fetchTagMapping none (Except.error ()) = [] ∧
    (∀ t : String, resolveTag (fetchTagMapping none (Except.error ())) t = t) ∧
    resolveTag (fetchTagMapping none (Except.error ())) "VIP" = "VIP" :=
  ⟨rfl, fun _ => rfl, rfl⟩

/-- C8: the constituent row with identifier P1, empty names, company Acme and
raw tags "vip, vip, donor", processed with the mapping vip to VIP-Tier,
yields canonical tag string "VIP-Tier, donor" and constituent type Company. -/
theorem end_to_end_company_row :
    (buildRow [("vip", "VIP-Tier")] (fun _ => []) (fun _ => none) (fun _ => none)
        { patronId := some "P1", firstName := some "", lastName := some "",
          company := some "Acme", dateEntered := none, salutation := none,
          primaryEmail := none, jobTitle := none,
          tags := some "vip, vip, donor" }).cbTags = "VIP-Tier, donor" ∧
    (buildRow [("vip", "VIP-Tier")] (fun _ => []) (fun _ => none) (fun _ => none)
        { patronId := some "P1", firstName := some "", lastName := some "",
          company := some "Acme", dateEntered := none, salutation := none,
          primaryEmail := none, jobTitle := none,
          tags := some "vip, vip, donor" }).cbType = "Company" := by
  constructor <;> rfl

/-- C9: the salutation normalizer always lands in the fixed allowed title
set, so on rows built by the constituent pipeline the validator's BAD_TITLE
scan finds nothing. -/
theorem title_always_allowed :
    (∀ x : Option String, normalizeSalutation x ∈ ALLOWED_TITLES) ∧
    (∀ (tagMap : List (String × String)) (elk : String → List String)
        (llk : String → Option ℚ) (rlk : String → Option DonRow) (rows : List CRow),
      badTitleIssues (rows.map (buildRow tagMap elk llk rlk)) = []) := by
  refine ⟨normalizeSalutation_mem, ?_⟩
  intro tagMap elk llk rlk rows
  unfold badTitleIssues
  have hnil : (rows.map (buildRow tagMap elk llk rlk)).filter
      (fun r => !(decide (r.cbTitle ∈ ALLOWED_TITLES))) = [] := by
    rw [List.filter_eq_nil_iff]
    intro a ha
    rw [List.mem_map] at ha
    obtain ⟨r, _, rfl⟩ := ha
    have h1 : (buildRow tagMap elk llk rlk r).cbTitle = normalizeSalutation r.salutation := rfl
    simp [h1, normalizeSalutation_mem r.salutation]
  rw [hnil]
  rfl

/-- C3: for each identifier, the most-recent aggregate is exactly the first
record, in retained-table order, whose parsable date is greatest among the
identifier's parsable-date records (the spec-side selection is phrased as the
first record whose date is at least every other's); identifiers with no
parsable-date record are absent. -/
theorem donation_most_recent_spec (t : DonTable) (pid : String) :
    (buildDonationAggregates t).2 pid =
      (((retainedRows t).filter (fun r => r.dateDt.isSome)).filter
          (fun r => r.patronId == pid)).find?
        (fun r =>
          (((retainedRows t).filter (fun r => r.dateDt.isSome)).filter
              (fun r => r.patronId == pid)).all
            (fun x => decide (rowKey x ≤ rowKey r))) := by
  simp only [buildDonationAggregates]
  by_cases he : ((retainedRows t).filter (fun r => r.dateDt.isSome)).isEmpty
  · rw [if_pos he]
    have hnil : (retainedRows t).filter (fun r => r.dateDt.isSome) = [] :=
      List.isEmpty_iff.1 he
    simp [hnil]
  · rw [if_neg he]
    exact idxmax_eq_find _

/-- C5: for each identifier the lifetime aggregate is the sum of the carried
parse_amount results over exactly its retained records with a parsable
amount, and an identifier none of whose retained records has a parsable
amount is absent from the mapping rather than mapped to zero. -/
theorem donation_lifetime_spec (t : DonTable) (pid : String) :
    (buildDonationAggregates t).1 pid =
      (if (((retainedRows t).filter (fun r => r.patronId == pid)).filterMap
            (fun r => r.amountNum)).isEmpty
       then none
       else some ((((retainedRows t).filter (fun r => r.patronId == pid)).filterMap
            (fun r => r.amountNum)).sum)) := by
  have hproj : (buildDonationAggregates t).1 = fun pid =>
      let g := ((retainedRows t).filter (fun r => r.amountNum.isSome)).filter
        (fun r => r.patronId == pid)
      if g.isEmpty then none else some ((g.filterMap (fun r => r.amountNum)).sum) := by
    simp only [buildDonationAggregates]
    by_cases he : ((retainedRows t).filter (fun r => r.dateDt.isSome)).isEmpty
    · rw [if_pos he]
    · rw [if_neg he]
  rw [hproj]
  dsimp only
  rw [List.filter_filter]
  rw [filterMap_amount_comm (retainedRows t) (fun r => r.patronId == pid)]
  rw [isEmpty_filter_isSome (retainedRows t) (fun r => r.patronId == pid)]

/-- C7: after the pair-level duplicate drop, each (identifier, canonical tag)
pair occurs at most once, and the reported count of every canonical tag is
the number of distinct identifiers referencing it among the raw pairs. -/
theorem tag_count_distinct_identifiers (tagMap : List (String × String))
    (rows : List CRow) (t : String) :
    tagReportCount tagMap rows t =
      ((((buildPairs tagMap rows).filter (fun p => p.2 == t)).map Prod.fst).toFinset).card ∧
    (dedupePreserveOrder (buildPairs tagMap rows)).Nodup := by
  constructor
  · have hm : ∀ x, x ∈ dedupePreserveOrder (buildPairs tagMap rows) ↔
        x ∈ buildPairs tagMap rows := by
      intro x
      rw [dedupePreserveOrder, mem_dedupeGo]
      simp
    have hfs : (((dedupePreserveOrder (buildPairs tagMap rows)).filter
          (fun p => p.2 == t)).map Prod.fst).toFinset
        = (((buildPairs tagMap rows).filter (fun p => p.2 == t)).map Prod.fst).toFinset := by
      ext a
      simp only [List.mem_toFinset, List.mem_map, List.mem_filter, hm]
    unfold tagReportCount
    dsimp only
    rw [hfs]
  · exact nodup_dedupeGo _ _

/-- A donation row whose parsed date carries a non-midnight time of day. -/
def donRowAfternoon : DonRow :=
  { patronId := "P1", status := none, amountNum := some 5,
    dateDt := some ⟨2023, 6, 15, 13, 45, 0⟩ }

/-- A donation table (no Status column) holding only the afternoon row. -/
def donTableAfternoon : DonTable := { hasStatus := false, rows := [donRowAfternoon] }

/-- A constituent source row for identifier P1 with every other cell missing. -/
def crowP1 : CRow :=
  { patronId := some "P1", firstName := none, lastName := none, company := none,
    dateEntered := none, salutation := none, primaryEmail := none, jobTitle := none,
    tags := none }

/-- C4 counterexample: fed through the donation aggregator and the row
builder, a most-recent donation parsed as 2023-06-15 13:45:00 is rendered
with its time of day intact, which differs from the timestamp normalizer's
midnight-truncated canonical form that the claim asserts. -/
theorem most_recent_date_not_normalized :
    (buildDonationAggregates donTableAfternoon).2 "P1" = some donRowAfternoon ∧
    (buildRow [] (fun _ => []) (buildDonationAggregates donTableAfternoon).1
        (buildDonationAggregates donTableAfternoon).2 crowP1).cbMostRecentDate
      = "2023-06-15 13:45:00" ∧
    parseCreatedAt donRowAfternoon.dateDt = "2023-06-15 00:00:00" ∧
    (buildRow [] (fun _ => []) (buildDonationAggregates donTableAfternoon).1
        (buildDonationAggregates donTableAfternoon).2 crowP1).cbMostRecentDate
      ≠ parseCreatedAt donRowAfternoon.dateDt := by
  refine ⟨rfl, rfl, rfl, ?_⟩
  decide

/-- C4 amended: the output's most-recent donation date field renders the
most-recent record's parsed date with strftime directly — keeping its time of
day, not truncating to midnight — and so agrees with the timestamp
normalizer's canonical form exactly when the time of day is zero; when no
most-recent record exists for the identifier, the date and amount fields are
both empty. -/
theorem most_recent_fields_amended (tagMap : List (String × String))
    (elk : String → List String) (llk : String → Option ℚ)
    (rlk : String → Option DonRow) (r : CRow) :
    ((buildRow tagMap elk llk rlk r).cbMostRecentDate =
      (match rlk (cleanStr r.patronId) with
       | none => ""
       | some mr =>
         match mr.dateDt with
         | none => ""
         | some dt => fmtTs dt)) ∧
    (∀ mr dt, rlk (cleanStr r.patronId) = some mr → mr.dateDt = some dt →
      dt.hour = 0 → dt.minute = 0 → dt.second = 0 →
      (buildRow tagMap elk llk rlk r).cbMostRecentDate = parseCreatedAt (some dt)) ∧
    (rlk (cleanStr r.patronId) = none →
      (buildRow tagMap elk llk rlk r).cbMostRecentDate = "" ∧
      (buildRow tagMap elk llk rlk r).cbMostRecentAmount = "") := by
  have hdate : (buildRow tagMap elk llk rlk r).cbMostRecentDate =
      (match rlk (cleanStr r.patronId) with
       | none => ""
       | some mr =>
         match mr.dateDt with
         | none => ""
         | some dt => fmtTs dt) := rfl
  have hamt : (buildRow tagMap elk llk rlk r).cbMostRecentAmount =
      (match rlk (cleanStr r.patronId) with
       | none => ""
       | some mr =>
         match mr.amountNum with
         | none => ""
         | some q => fmtCurrency q) := rfl
  refine ⟨hdate, ?_, ?_⟩
  · intro mr dt h1 h2 h3 h4 h5
    rw [hdate, h1]
    dsimp only
    rw [h2]
    show fmtTs dt = fmtTs (normalizeDT dt)
    rw [normalizeDT_of_midnight dt h3 h4 h5]
  · intro h1
    rw [hdate, hamt, h1]
    exact ⟨rfl, rfl⟩

/-- A donation row whose parsed date is exactly at midnight. -/
def donRowMidnight : DonRow :=
  { patronId := "P1", status := none, amountNum := some 5,
    dateDt := some ⟨2023, 6, 15, 0, 0, 0⟩ }

/-- C4 amended witness: at a concrete midnight-dated record the rendered
field coincides with the timestamp normalizer's canonical form. -/
theorem most_recent_fields_amended_witness :
    (buildRow [] (fun _ => []) (fun _ => none) (fun _ => some donRowMidnight)
        crowP1).cbMostRecentDate
      = parseCreatedAt (some ⟨2023, 6, 15, 0, 0, 0⟩) :=
  (most_recent_fields_amended [] (fun _ => []) (fun _ => none)
      (fun _ => some donRowMidnight) crowP1).2.1
    donRowMidnight ⟨2023, 6, 15, 0, 0, 0⟩ rfl rfl rfl rfl rfl

/-- C10: the order-preserving deduplication is idempotent on lists of
strings. -/
theorem dedupe_preserve_order_idempotent (items : List String) :
    dedupePreserveOrder (dedupePreserveOrder items) = dedupePreserveOrder items :=
  dedupeGo_idem items []

end Cuebox
